/-
Verification of the email attachment processor (IMAP ingestion pipeline).

This file gives a shallow embedding, in Lean 4, of the pipeline's data model
and operations, translated from the repository sources:

  * `email_processor.py` — the legacy monolithic script: the day-bucketed
    dedup ledger (`load_processed_for_day`, `save_processed_uid_for_day`,
    `cleanup_old_processed_days`), the sender/topic filter
    (`resolve_custom_folder`, the allowed-senders check inside
    `download_attachments`), path safety (`normalize_folder_name`,
    `safe_save_path`), and helpers.
  * `email_processor/processor/email_processor.py` — the packaged
    `EmailProcessor._process_email` per-message state machine, embedded here
    as a pure function from an abstract per-message environment (the results
    of the three IMAP fetch phases) to an outcome plus a trace of side
    effects.

File systems are modelled as association lists keyed by name; a durable
ledger store is a list of text lines; Python `set`s are modelled as lists
with membership semantics.  Python functions that can raise model the raised
path with an explicit constructor of the corresponding input type.
-/
import Mathlib

namespace EmailProc

/-! ## Association lists (model of dict / file system directory) -/

/-- Lookup in an association list keyed by `String`. -/
def lookupA {α : Type} (m : List (String × α)) (k : String) : Option α :=
  ((m.find? (fun p => p.1 == k)).map (fun p => p.2))

/-- Insert-or-replace in an association list keyed by `String`. -/
def insertA {α : Type} (m : List (String × α)) (k : String) (v : α) :
    List (String × α) :=
  match m with
  | [] => [(k, v)]
  | (k', v') :: rest =>
      if k' == k then (k, v) :: rest else (k', v') :: insertA rest k v

/-! ## Whitespace stripping (model of Python `str.strip`) -/

/-- ASCII whitespace, the characters Python's `str.strip()` removes from
identifier-like strings (the full Python set also has some Unicode spaces;
ledger identifiers are decimal UID strings, so ASCII suffices). -/
def isSpaceChar (c : Char) : Bool :=
  (c == ' ') || (c == '\t') || (c == '\n') || (c == '\r') ||
    (c == '\x0b') || (c == '\x0c')

/-- Model of Python `str.strip()`: drop leading and trailing whitespace. -/
def strip (s : String) : String :=
  String.mk (((s.data.dropWhile isSpaceChar).reverse.dropWhile isSpaceChar).reverse)

/-! ## Dedup ledger (from `email_processor.py`, lines 165–201)

The durable store for a day bucket `d` is the text file `d ++ ".txt"` under
the ledger root; here the file system restricted to that root is an
association list from the bucket string to the file's list of lines, an
absent key meaning the file does not exist.  The in-run cache maps a bucket
string to the set (as a list) of identifiers, exactly as the Python
`Dict[str, Set[str]]`. -/

/-- Ledger file system: bucket day-string to the backing file's lines. -/
abbrev Fs := List (String × List String)

/-- In-memory per-run cache: bucket day-string to set of identifiers. -/
abbrev Cache := List (String × List String)

/-- The identifier set a ledger file's lines denote:
`\x7bline.strip() for line in f if line.strip()\x7d` — stripped non-blank lines. -/
def fileUids (lines : List String) : List String :=
  (lines.map strip).filter (fun l => !(l == ""))

/-- Embedding of `load_processed_for_day` (email_processor.py lines 175–189): return the
cached set if present; otherwise read the bucket's file (absent file gives
the empty set), cache and return it. -/
def load_processed_for_day (fs : Fs) (cache : Cache) (day : String) :
    List String × Cache :=
  match lookupA cache day with
  | some uids => (uids, cache)
  | none =>
      match lookupA fs day with
      | none => ([], insertA cache day [])
      | some lines =>
          let uids := fileUids lines
          (uids, insertA cache day uids)

/-- Embedding of `save_processed_uid_for_day` (email_processor.py lines 192–201): load the
bucket's set; if the identifier is already present do nothing, else append
one line `uid ++ "\n"` to the bucket's file and add the identifier to the
cached set. -/
def save_processed_uid_for_day (fs : Fs) (cache : Cache) (day uid : String) :
    Fs × Cache :=
  let r := load_processed_for_day fs cache day
  if uid ∈ r.1 then (fs, r.2)
  else
    ((insertA fs day (((lookupA fs day).getD []) ++ [uid])),
      insertA r.2 day (r.1 ++ [uid]))

/-- Coherence of cache and durable store at one bucket: a cached entry, when
present, has the same members as the identifier set denoted by the bucket's
backing file (an absent file counting as the empty set). -/
def coherentAt (fs : Fs) (cache : Cache) (day : String) : Prop :=
  ∀ s, lookupA cache day = some s →
    ∀ u, u ∈ s ↔ u ∈ fileUids ((lookupA fs day).getD [])

/-- Coherence at every bucket. -/
def coherent (fs : Fs) (cache : Cache) : Prop :=
  ∀ day, coherentAt fs cache day

/-! ## Regular expressions

Model of the Python `re` patterns the config's topic mapping may hold, with
the `re.IGNORECASE` flag baked into character comparison, and of `re.search`
(match anywhere, not anchored).  Matching is by Brzozowski derivatives. -/

/-- Regex abstract syntax: empty string, failure, literal character, `.`,
concatenation, alternation, Kleene star. -/
inductive Regex : Type
  | eps : Regex
  | fail : Regex
  | char : Char → Regex
  | any : Regex
  | seq : Regex → Regex → Regex
  | alt : Regex → Regex → Regex
  | star : Regex → Regex
deriving Repr, DecidableEq

/-- Does the regex accept the empty string? -/
def nullable : Regex → Bool
  | .eps => true
  | .fail => false
  | .char _ => false
  | .any => false
  | .seq r₁ r₂ => nullable r₁ && nullable r₂
  | .alt r₁ r₂ => nullable r₁ || nullable r₂
  | .star _ => true

/-- Brzozowski derivative; a literal character compares case-insensitively,
which is the `re.IGNORECASE` flag `resolve_custom_folder` always passes. -/
def deriv (r : Regex) (c : Char) : Regex :=
  match r with
  | .eps => .fail
  | .fail => .fail
  | .char c₀ => if c₀.toLower == c.toLower then .eps else .fail
  | .any => .eps
  | .seq r₁ r₂ =>
      if nullable r₁ then .alt (.seq (deriv r₁ c) r₂) (deriv r₂ c)
      else .seq (deriv r₁ c) r₂
  | .alt r₁ r₂ => .alt (deriv r₁ c) (deriv r₂ c)
  | .star r₀ => .seq (deriv r₀ c) (.star r₀)

/-- Whole-string match of a regex against a character list. -/
def fullmatchB (r : Regex) (cs : List Char) : Bool :=
  nullable (cs.foldl deriv r)

/-- Does some prefix of `cs` match `r`? -/
def prefixMatchB (r : Regex) : List Char → Bool
  | [] => nullable r
  | c :: rest => nullable r || prefixMatchB (deriv r c) rest

/-- Model of `re.search(pattern, s, flags=re.IGNORECASE)` truthiness: some
substring of `cs` (at any position) matches `r`. -/
def searchB (r : Regex) : List Char → Bool
  | [] => prefixMatchB r []
  | c :: rest => prefixMatchB r (c :: rest) || searchB r rest

/-- A literal-text pattern (each character taken verbatim). -/
def litRe (s : String) : Regex :=
  s.data.foldr (fun c r => Regex.seq (Regex.char c) r) Regex.eps

/-! ## Sender/topic filter (from `email_processor.py`) -/

/-- Model of Python `str.lower()`: lowercase character by character. -/
def toLowerS (s : String) : String :=
  String.mk (s.data.map Char.toLower)

/-- The allowed-senders check of `download_attachments`
(email_processor.py lines 322 and 356): the lowercased sender address must be
a member of the set of lowercased configured entries. -/
def is_allowed_sender (allowed_senders : List String) (sender : String) : Bool :=
  (allowed_senders.map toLowerS).contains (toLowerS sender)

/-- Embedding of `resolve_custom_folder` (email_processor.py lines 122–132): walk the
ordered topic mapping, return the destination of the first pattern whose
case-insensitive search against the subject succeeds, `none` when no pattern
matches. -/
def resolve_custom_folder (subject : String) (topic_mapping : List (Regex × String)) :
    Option String :=
  match topic_mapping with
  | [] => none
  | (pattern, folder) :: rest =>
      if searchB pattern subject.data then some folder
      else resolve_custom_folder subject rest

/-! ## Path safety: collision-free save paths (from `email_processor.py`) -/

/-- Model of `os.path.splitext` for a plain file name (no directory
separators): split at the last dot, provided at least one character strictly
before that dot is not itself a dot; otherwise the extension is empty. -/
def splitext (s : String) : String × String :=
  match s.data.reverse.findIdx? (fun c => c == '.') with
  | none => (s, "")
  | some k =>
      let i := s.data.length - 1 - k
      if (s.data.take i).any (fun c => c != '.') then
        (String.mk (s.data.take i), String.mk (s.data.drop i))
      else (s, "")

/-- Big-endian decimal digits of `n`, with explicit fuel (`fuel ≥ n`
suffices); empty for `n = 0`. -/
def natDigitsAux : Nat → Nat → List Char
  | 0, _ => []
  | _, 0 => []
  | fuel + 1, n + 1 =>
      natDigitsAux fuel ((n + 1) / 10) ++ [Nat.digitChar ((n + 1) % 10)]

/-- Decimal rendering of a natural number. -/
def natDec (n : Nat) : String :=
  if n = 0 then "0" else String.mk (natDigitsAux n n)

/-- Model of Python zero-padded two-wide decimal formatting. -/
def pad2 (n : Nat) : String :=
  if n < 10 then "0" ++ natDec n else natDec n

/-- Read a digit string back as a number (proof device for injectivity of
the decimal rendering). -/
def unDec (cs : List Char) : Nat :=
  cs.foldl (fun acc c => acc * 10 + (c.toNat - 48)) 0

/-- The `n`-th candidate file name tried by `safe_save_path`
(email_processor.py lines 135–144): the plain name first, then
`base_01.ext`, `base_02.ext`, … -/
def sspCand (filename : String) (n : Nat) : String :=
  if n = 0 then filename
  else (splitext filename).1 ++ "_" ++ pad2 n ++ (splitext filename).2

/-- The `while os.path.exists(candidate)` loop of `safe_save_path`, with
fuel; `existing` is the set of file names already present in the target
directory. -/
def sspLoop (existing : List String) (filename : String) : Nat → Nat → Option String
  | 0, _ => none
  | fuel + 1, n =>
      if existing.contains (sspCand filename n) then
        sspLoop existing filename fuel (n + 1)
      else some (sspCand filename n)

/-- Embedding of `safe_save_path` (email_processor.py lines 135–144): first candidate
name not already present in the directory.  Fuel `existing.length + 2`
provably suffices (see `c8_safe_save_path`), so the `Option` is always
`some`. -/
def safe_save_path (existing : List String) (filename : String) : Option String :=
  sspLoop existing filename (existing.length + 2) 0

/-! ## Retention sweep (from `email_processor.py`, lines 204–227) -/

/-- Split a character list on `-`, keeping empty groups, as Python
`str.split("-")` does. -/
def splitDash : List Char → List (List Char)
  | [] => [[]]
  | c :: rest =>
      let r := splitDash rest
      if c = '-' then [] :: r
      else
        match r with
        | [] => [[c]]
        | g :: gs => (c :: g) :: gs

/-- Gregorian leap year, as Python `datetime.date` uses. -/
def isLeap (y : Nat) : Bool :=
  (y % 4 == 0 && y % 100 != 0) || (y % 400 == 0)

/-- Days in a month of the proleptic Gregorian calendar. -/
def daysInMonth (y m : Nat) : Nat :=
  if m == 2 then (if isLeap y then 29 else 28)
  else if m == 4 || m == 6 || m == 9 || m == 11 then 30 else 31

/-- Model of Python `datetime.strptime(s, "%Y-%m-%d").date()` inside a
try/except: the year is exactly four digits, month and day are one or two
digits in range (the `%m`/`%d` patterns), the whole string is consumed, and
`datetime` construction requires year ≥ 1 and a day valid for the month. -/
def parseYMD (s : String) : Option (Nat × Nat × Nat) :=
  match splitDash s.data with
  | [ys, ms, ds] =>
      if (ys.length == 4 && ys.all Char.isDigit
          && (ms.length == 1 || ms.length == 2) && ms.all Char.isDigit
          && (ds.length == 1 || ds.length == 2) && ds.all Char.isDigit) then
        let y := unDec ys
        let m := unDec ms
        let d := unDec ds
        if (1 ≤ y && 1 ≤ m && m ≤ 12 && 1 ≤ d && d ≤ daysInMonth y m) then
          some (y, m, d)
        else none
      else none
  | _ => none

/-- Days in the months of year `y` strictly before month `m`. -/
def daysBeforeMonth (y m : Nat) : Nat :=
  (List.range (m - 1)).foldl (fun acc i => acc + daysInMonth y (i + 1)) 0

/-- Python `date.toordinal()`: day number of the proleptic Gregorian date,
with 0001-01-01 mapping to 1. -/
def dateOrd (y m d : Nat) : Nat :=
  365 * (y - 1) + (y - 1) / 4 - (y - 1) / 100 + (y - 1) / 400
    + daysBeforeMonth y m + d

/-- A directory entry of the ledger root, as `os.listdir` sees it. -/
structure DirEntry where
  name : String
  isFile : Bool
deriving DecidableEq, Repr

/-- Does the sweep delete this entry?  Mirrors the loop body of
`cleanup_old_processed_days`: regular file, extension `.txt`, base name
parses as a date, and that date is strictly before the cutoff
`today - keep_days`. -/
def sweepTarget (todayOrd keep : Int) (e : DirEntry) : Bool :=
  e.isFile && ((splitext e.name).2 == ".txt")
    && (match parseYMD (splitext e.name).1 with
        | some (y, m, d) => decide ((dateOrd y m d : Int) < todayOrd - keep)
        | none => false)

/-- Embedding of `cleanup_old_processed_days` (email_processor.py lines 204–227) acting
on the ledger root's directory listing: non-positive retention is a no-op,
otherwise the swept entries are removed.  `todayOrd` is the ordinal of
`datetime.now().date()`; Python date comparison and `timedelta` subtraction
are ordinal order and arithmetic. -/
def cleanup_old_processed_days (todayOrd keep : Int) (entries : List DirEntry) :
    List DirEntry :=
  if keep ≤ 0 then entries
  else entries.filter (fun e => !sweepTarget todayOrd keep e)

/-! ## Paths (POSIX `pathlib` model, no symlinks) -/

/-- A `pathlib.Path`: absolute flag plus components (`..` and `.` may occur
in unresolved paths). -/
structure PathM where
  absolute : Bool
  comps : List String
deriving DecidableEq, Repr

/-- Split a character list at a separator, keeping empty groups (Python
`str.split(sep)`). -/
def splitSep (sep : Char) : List Char → List (List Char)
  | [] => [[]]
  | c :: rest =>
      let r := splitSep sep rest
      if c = sep then [] :: r
      else
        match r with
        | [] => [[c]]
        | g :: gs => (c :: g) :: gs

/-- Parse a path string as `pathlib` does: absolute iff it starts with `/`;
empty and single-dot components are dropped at parse time, `..` is kept. -/
def parsePath (s : String) : PathM :=
  ⟨(s.data.head? == some '/'),
    ((splitSep '/' s.data).map String.mk).filter (fun c => !(c == "") && !(c == "."))⟩

/-- The `/` operator of `pathlib`: an absolute right operand replaces the
left one entirely. -/
def pathJoin (p q : PathM) : PathM :=
  if q.absolute then q else ⟨p.absolute, p.comps ++ q.comps⟩

/-- One step of lexical canonicalization: `.` and empty components vanish,
`..` pops (staying at the root when already there). -/
def normComps (cs : List String) : List String :=
  cs.foldl
    (fun stack c =>
      if c = "." ∨ c = "" then stack
      else if c = ".." then stack.dropLast
      else stack ++ [c])
    []

/-- Model of `Path.resolve()` on an already-absolute path with no symlinks:
canonicalize the components. -/
def resolveP (p : PathM) : PathM :=
  ⟨true, normComps p.comps⟩

/-- Is `pre` a prefix of `l` (component-wise)? -/
def isPrefixA : List String → List String → Bool
  | [], _ => true
  | _ :: _, [] => false
  | a :: as', b :: bs => (a == b) && isPrefixA as' bs

/-- Modelled from the spec: `validate_path` of
`email_processor/storage/file_manager.py`, which is absent from the tree
(only imported and called).  Per the spec's Path Safety section, it confirms
that the resolved, canonicalized target directory is the configured download
root or a descendant of it; both arguments arrive already resolved. -/
def validate_path (root target : PathM) : Bool :=
  (root.absolute == target.absolute) && isPrefixA root.comps target.comps

/-- Embedding of `normalize_folder_name` (email_processor.py lines 103–106, identical in
email_processor/utils/path_utils.py): strip surrounding whitespace, replace
characters illegal in file names (`<>:"/\|?*` and the control range
0x00–0x1F) with `_`, truncate to 200 characters. -/
def normalize_folder_name (name : String) : String :=
  String.mk (((strip name).data.map (fun c =>
    if c = '<' ∨ c = '>' ∨ c = ':' ∨ c = '"' ∨ c = '/' ∨ c = '\\'
        ∨ c = '|' ∨ c = '?' ∨ c = '*' ∨ c.toNat ≤ 0x1F
    then '_' else c)).take 200)

/-! ## Per-message processing (`EmailProcessor._process_email`) -/

/-- Result of `mail.fetch(msg_id, "(UID RFC822.SIZE BODYSTRUCTURE)")`
(phase A): the call raised, returned a non-OK status or empty data, or
returned a decoded raw string. -/
inductive FetchA : Type
  | exn : FetchA
  | bad : FetchA
  | ok : String → FetchA
deriving DecidableEq, Repr

/-- Result of the header fetch (phase B): raised, non-OK/empty data, empty
header bytes, header-parse exception, or parsed headers (sender address,
decoded subject, and the day-bucket string derived from the Date header,
"nodate" when unparseable). -/
inductive FetchB : Type
  | exn : FetchB
  | bad : FetchB
  | empty : FetchB
  | parseExn : FetchB
  | ok : String → String → String → FetchB
deriving DecidableEq, Repr

/-- What became of one MIME part handed to the attachment handler.
Modelled from the spec: `AttachmentHandler.save_attachment` of the missing
`email_processor/processor/attachments.py` returns whether the part was
actually written; a part rejected by the extension/size policy and a part
whose write failed both return false. -/
inductive SaveOutcome : Type
  | written : SaveOutcome
  | blockedByPolicy : SaveOutcome
  | ioFailed : SaveOutcome
deriving DecidableEq, Repr

/-- A MIME part of the fetched message: whether its content disposition is
"attachment", and what the attachment handler did with it. -/
structure Part where
  isAttachment : Bool
  save : SaveOutcome
deriving DecidableEq, Repr

/-- Result of the full-body fetch (phase C): raised, non-OK/empty data,
empty message bytes, body-parse exception, or the parsed message's parts. -/
inductive FetchC : Type
  | exn : FetchC
  | bad : FetchC
  | empty : FetchC
  | parseExn : FetchC
  | ok : List Part → FetchC
deriving DecidableEq, Repr

/-- Per-message outcome of `_process_email`. -/
inductive Outcome : Type
  | processed : Outcome
  | skipped : Outcome
  | error : Outcome
deriving DecidableEq, Repr

/-- Observable side effects of one `_process_email` run, in order. -/
inductive Action : Type
  | fetchMeta : Action
  | fetchHeader : Action
  | fetchFull : Action
  | mkdir : PathM → Action
  | writeFile : PathM → Action
  | saveUid : String → String → Action
  | archive : String → Action
deriving DecidableEq, Repr

/-- The processor configuration fields `_process_email` consults. -/
structure Config where
  downloadDir : PathM
  topicMapping : List (Regex × String)
  allowedSenders : List String
  skipNonAllowedAsProcessed : Bool
  archiveOnlyMapped : Bool
deriving Repr

/-- The per-message environment: what the mail server and local file system
do at each interaction point. -/
structure MsgEnv where
  phaseA : FetchA
  phaseB : FetchB
  phaseC : FetchC
  mkdirFails : Bool
deriving Repr

/-- Model of `re.search(r"UID (\x7bdigits\x7d+)", raw)` at one position: the literal
`UID ` followed by at least one digit; the capture is the maximal digit
run. -/
def uidAt : List Char → Option (List Char)
  | 'U' :: 'I' :: 'D' :: ' ' :: rest =>
      let ds := rest.takeWhile Char.isDigit
      if ds.isEmpty then none else some ds
  | _ => none

/-- Leftmost match for the UID pattern. -/
def findUIDAux : List Char → Option String
  | [] => none
  | c :: rest =>
      match uidAt (c :: rest) with
      | some ds => some (String.mk ds)
      | none => findUIDAux rest

/-- Extract the UID from the phase-A raw response, as
`re.search(r"UID (\x5cd+)", raw)` does. -/
def findUID (s : String) : Option String := findUIDAux s.data

/-- The target directory `_process_email` computes for a message
(email_processor/processor/email_processor.py lines 392–396): the mapped
folder joined to the download root when a topic mapping matched the subject,
else the normalized subject under the root. -/
def targetFolder (cfg : Config) (subject : String) : PathM :=
  match resolve_custom_folder subject cfg.topicMapping with
  | some f => pathJoin cfg.downloadDir (parsePath f)
  | none => pathJoin cfg.downloadDir ⟨false, [normalize_folder_name subject]⟩

/-- What `_process_email` returns and does: outcome, effect trace, and the
ledger state (files and in-memory cache) after the call. -/
structure ProcResult where
  outcome : Outcome
  trace : List Action
  fs : Fs
  cache : Cache
deriving Repr

/-- Shallow embedding of `EmailProcessor._process_email`
(email_processor/processor/email_processor.py lines 314–472).  The missing
collaborators are modelled as follows: `self.filter.is_allowed_sender` and
`self.filter.resolve_folder` (filters.py absent) behave as the identical
legacy functions `is_allowed_sender` / `resolve_custom_folder` embedded
above; `validate_path` (file_manager.py absent) is modelled from the spec;
`save_attachment` (attachments.py absent) returns whether the part was
written, per the spec's Materializer contract.  `dry_run` is `False`. -/
def processEmail (cfg : Config) (env : MsgEnv) (fs : Fs) (cache : Cache) : ProcResult :=
  match env.phaseA with
  | .exn => ⟨.error, [.fetchMeta], fs, cache⟩
  | .bad => ⟨.skipped, [.fetchMeta], fs, cache⟩
  | .ok raw =>
    match findUID raw with
    | none => ⟨.skipped, [.fetchMeta], fs, cache⟩
    | some uid =>
      match env.phaseB with
      | .exn => ⟨.error, [.fetchMeta, .fetchHeader], fs, cache⟩
      | .bad => ⟨.skipped, [.fetchMeta, .fetchHeader], fs, cache⟩
      | .empty => ⟨.skipped, [.fetchMeta, .fetchHeader], fs, cache⟩
      | .parseExn => ⟨.error, [.fetchMeta, .fetchHeader], fs, cache⟩
      | .ok sender subject dayStr =>
        let lr := load_processed_for_day fs cache dayStr
        if uid ∈ lr.1 then ⟨.skipped, [.fetchMeta, .fetchHeader], fs, lr.2⟩
        else if !(is_allowed_sender cfg.allowedSenders sender) then
          if cfg.skipNonAllowedAsProcessed then
            let sr := save_processed_uid_for_day fs lr.2 dayStr uid
            ⟨.skipped, [.fetchMeta, .fetchHeader, .saveUid dayStr uid], sr.1, sr.2⟩
          else ⟨.skipped, [.fetchMeta, .fetchHeader], fs, lr.2⟩
        else
          let mapped := resolve_custom_folder subject cfg.topicMapping
          let targetR := resolveP (targetFolder cfg subject)
          if !(validate_path (resolveP cfg.downloadDir) targetR) then
            ⟨.error, [.fetchMeta, .fetchHeader], fs, lr.2⟩
          else if env.mkdirFails then
            ⟨.error, [.fetchMeta, .fetchHeader], fs, lr.2⟩
          else
            match env.phaseC with
            | .exn => ⟨.error, [.fetchMeta, .fetchHeader, .mkdir targetR, .fetchFull], fs, lr.2⟩
            | .bad =>
                let sr := save_processed_uid_for_day fs lr.2 dayStr uid
                ⟨.skipped,
                  [.fetchMeta, .fetchHeader, .mkdir targetR, .fetchFull, .saveUid dayStr uid],
                  sr.1, sr.2⟩
            | .empty => ⟨.skipped, [.fetchMeta, .fetchHeader, .mkdir targetR, .fetchFull], fs, lr.2⟩
            | .parseExn => ⟨.error, [.fetchMeta, .fetchHeader, .mkdir targetR, .fetchFull], fs, lr.2⟩
            | .ok parts =>
                let atts := parts.filter (fun p => p.isAttachment)
                let written := atts.filter (fun p => p.save == .written)
                let notWritten := atts.filter (fun p => !(p.save == .written))
                let sr := save_processed_uid_for_day fs lr.2 dayStr uid
                let arch : List Action :=
                  if mapped.isSome && cfg.archiveOnlyMapped then [.archive uid] else []
                let outcome : Outcome :=
                  if !written.isEmpty then .processed
                  else if !notWritten.isEmpty then .error
                  else .skipped
                ⟨outcome,
                  [.fetchMeta, .fetchHeader, .mkdir targetR, .fetchFull]
                    ++ written.map (fun _ => Action.writeFile targetR)
                    ++ [.saveUid dayStr uid] ++ arch,
                  sr.1, sr.2⟩

/-- Run-level counts, mirroring the `ProcessingResult` dataclass
(email_processor/processor/email_processor.py lines 72–78); its only count
fields are `processed`, `skipped` and `errors` (plus optional per-extension
file statistics, not modelled). -/
structure ProcessingResult where
  processed : Nat
  skipped : Nat
  errors : Nat
deriving DecidableEq, Repr

/-- The message loop of `EmailProcessor.process`: fold `_process_email`
over the messages, tallying outcomes. -/
def processAll (cfg : Config) (envs : List MsgEnv) (fs : Fs) (cache : Cache) :
    ProcessingResult × Fs × Cache :=
  match envs with
  | [] => (⟨0, 0, 0⟩, fs, cache)
  | e :: rest =>
      let r := processEmail cfg e fs cache
      let rr := processAll cfg rest r.fs r.cache
      match r.outcome with
      | .processed => (⟨rr.1.processed + 1, rr.1.skipped, rr.1.errors⟩, rr.2)
      | .skipped => (⟨rr.1.processed, rr.1.skipped + 1, rr.1.errors⟩, rr.2)
      | .error => (⟨rr.1.processed, rr.1.skipped, rr.1.errors + 1⟩, rr.2)

theorem lookupA_insertA_self {α : Type} (m : List (String × α)) (k : String) (v : α) :
    lookupA (insertA m k v) k = some v := by
  induction m with
  | nil => simp [lookupA, insertA, List.find?]
  | cons p rest ih =>
    obtain ⟨k', v'⟩ := p
    by_cases h : k' = k
    · subst h
      simp [insertA, lookupA, List.find?]
    · have hb : (k' == k) = false := beq_false_of_ne h
      simp only [insertA, hb, if_false]
      simpa [lookupA, List.find?, hb] using ih

theorem lookupA_insertA_ne {α : Type} (m : List (String × α)) (k k₀ : String) (v : α)
    (h : k₀ ≠ k) : lookupA (insertA m k v) k₀ = lookupA m k₀ :=  by
  induction m with
  | nil =>
    simp [lookupA, insertA, List.find?, beq_false_of_ne (Ne.symm h)]
  | cons p rest ih =>
    obtain ⟨k', v'⟩ := p
    by_cases hk : k' = k
    · subst hk
      simp [insertA, lookupA, List.find?, beq_false_of_ne (Ne.symm h)]
    · have hb : (k' == k) = false := beq_false_of_ne hk
      by_cases hk0 : k' = k₀
      · subst hk0
        simp [insertA, hb, lookupA, List.find?]
      · have hb0 : (k' == k₀) = false := beq_false_of_ne hk0
        simp only [insertA, hb, if_false]
        simpa [lookupA, List.find?, hb0] using ih

theorem dropWhile_eq_self_of_not {p : Char → Bool} (l : List Char)
    (h : ∀ c ∈ l, p c = false) : l.dropWhile p = l := by
  cases l with
  | nil => rfl
  | cons c rest =>
    have : p c = false := h c (by simp)
    simp [List.dropWhile, this]

theorem strip_eq_self (s : String) (h : ∀ c ∈ s.data, isSpaceChar c = false) :
    strip s = s := by
  unfold strip
  rw [dropWhile_eq_self_of_not s.data h,
      dropWhile_eq_self_of_not s.data.reverse (by intro c hc; exact h c (List.mem_reverse.mp hc)),
      List.reverse_reverse]

theorem load_snd_lookup (fs : Fs) (cache : Cache) (day : String) :
    lookupA (load_processed_for_day fs cache day).2 day
      = some (load_processed_for_day fs cache day).1 := by
  unfold load_processed_for_day
  cases hc : lookupA cache day with
  | some s => simp [hc]
  | none =>
    cases hf : lookupA fs day with
    | none => simp [hc, hf, lookupA_insertA_self]
    | some lines => simp [hc, hf, lookupA_insertA_self]

theorem load_snd_lookup_ne (fs : Fs) (cache : Cache) (day d : String) (h : d ≠ day) :
    lookupA (load_processed_for_day fs cache day).2 d = lookupA cache d := by
  unfold load_processed_for_day
  cases hc : lookupA cache day with
  | some s => simp
  | none =>
    cases hf : lookupA fs day with
    | none => simp [lookupA_insertA_ne _ _ _ _ h]
    | some lines => simp [lookupA_insertA_ne _ _ _ _ h]

theorem load_fst_spec (fs : Fs) (cache : Cache) (day : String)
    (hcoh : coherentAt fs cache day) :
    ∀ u, u ∈ (load_processed_for_day fs cache day).1
      ↔ u ∈ fileUids ((lookupA fs day).getD []) := by
  intro u
  unfold load_processed_for_day
  cases hc : lookupA cache day with
  | some s => simpa using hcoh s hc u
  | none =>
    cases hf : lookupA fs day with
    | none => simp [hf, fileUids]
    | some lines => simp [hf]

theorem load_coherent (fs : Fs) (cache : Cache) (day : String)
    (hcoh : coherent fs cache) :
    coherent fs (load_processed_for_day fs cache day).2 := by
  intro d s hs u
  by_cases hd : d = day
  · subst hd
    rw [load_snd_lookup] at hs
    cases hs
    exact load_fst_spec fs cache d (hcoh d) u
  · rw [load_snd_lookup_ne fs cache day d hd] at hs
    exact hcoh d s hs u

theorem fileUids_append_self (ls : List String) (uid : String)
    (hs : strip uid = uid) (hne : uid ≠ "") :
    fileUids (ls ++ [uid]) = fileUids ls ++ [uid] := by
  simp [fileUids, hs, hne]

theorem save_snd_lookup (fs : Fs) (cache : Cache) (day uid : String) :
    ∃ s, lookupA (save_processed_uid_for_day fs cache day uid).2 day = some s
      ∧ uid ∈ s := by
  unfold save_processed_uid_for_day
  by_cases hm : uid ∈ (load_processed_for_day fs cache day).1
  · exact ⟨(load_processed_for_day fs cache day).1, by simp [hm, load_snd_lookup], hm⟩
  · exact ⟨(load_processed_for_day fs cache day).1 ++ [uid],
      by simp [hm, lookupA_insertA_self], by simp⟩

theorem save_cache_hit (fs : Fs) (cache : Cache) (day uid : String) (s : List String)
    (h : lookupA cache day = some s) (hm : uid ∈ s) :
    save_processed_uid_for_day fs cache day uid = (fs, cache) := by
  unfold save_processed_uid_for_day load_processed_for_day
  simp [h, hm]

theorem save_save_self (fs : Fs) (cache : Cache) (day uid : String) :
    save_processed_uid_for_day (save_processed_uid_for_day fs cache day uid).1
        (save_processed_uid_for_day fs cache day uid).2 day uid
      = save_processed_uid_for_day fs cache day uid := by
  obtain ⟨s, hs, hm⟩ := save_snd_lookup fs cache day uid
  rw [save_cache_hit _ _ _ _ s hs hm]

theorem save_fresh_mem (fs : Fs) (day uid : String) (lines : List String)
    (hf : lookupA fs day = some lines) (hm : uid ∈ fileUids lines) :
    (save_processed_uid_for_day fs [] day uid).1 = fs := by
  have hc : lookupA ([] : Cache) day = none := rfl
  unfold save_processed_uid_for_day load_processed_for_day
  simp [hc, hf, hm]

theorem save_coherent (fs : Fs) (cache : Cache) (day uid : String)
    (hcoh : coherent fs cache) (hs : strip uid = uid) (hne : uid ≠ "") :
    coherent (save_processed_uid_for_day fs cache day uid).1
             (save_processed_uid_for_day fs cache day uid).2 := by
  by_cases hm : uid ∈ (load_processed_for_day fs cache day).1
  · have heq : save_processed_uid_for_day fs cache day uid
        = (fs, (load_processed_for_day fs cache day).2) := by
      unfold save_processed_uid_for_day
      simp [hm]
    rw [heq]
    exact load_coherent fs cache day hcoh
  · have heq : save_processed_uid_for_day fs cache day uid
        = (insertA fs day (((lookupA fs day).getD []) ++ [uid]),
           insertA (load_processed_for_day fs cache day).2 day
             ((load_processed_for_day fs cache day).1 ++ [uid])) := by
      unfold save_processed_uid_for_day
      simp [hm]
    rw [heq]
    intro d s hsd u
    by_cases hd : d = day
    · subst hd
      rw [lookupA_insertA_self] at hsd
      cases hsd
      rw [lookupA_insertA_self]
      simp only [Option.getD_some]
      rw [fileUids_append_self _ _ hs hne]
      simp [load_fst_spec fs cache d (hcoh d) u]
    · rw [lookupA_insertA_ne _ _ _ _ hd, load_snd_lookup_ne _ _ _ _ hd] at hsd
      rw [lookupA_insertA_ne _ _ _ _ hd]
      exact hcoh d s hsd u

/-- Claim C4: saving the same (bucket, identifier) twice — in the same run or
across runs — does not change the state the second time: the durable store
ends up with exactly one record of the identifier, the second same-run call
returns both store and cache unchanged, and a save in a later run (fresh
empty cache) also leaves the store unchanged. -/
theorem c4_save_idempotent (fs : Fs) (cache : Cache) (day uid : String)
    (hcoh : coherentAt fs cache day)
    (hnew : uid ∉ fileUids ((lookupA fs day).getD []))
    (hs : strip uid = uid) (hne : uid ≠ "") :
    save_processed_uid_for_day (save_processed_uid_for_day fs cache day uid).1
        (save_processed_uid_for_day fs cache day uid).2 day uid
      = save_processed_uid_for_day fs cache day uid
    ∧ (fileUids ((lookupA (save_processed_uid_for_day fs cache day uid).1 day).getD
        [])).count uid = 1
    ∧ (save_processed_uid_for_day (save_processed_uid_for_day fs cache day uid).1
        [] day uid).1
      = (save_processed_uid_for_day fs cache day uid).1 := by
  have hm : uid ∉ (load_processed_for_day fs cache day).1 := by
    intro h
    exact hnew ((load_fst_spec fs cache day hcoh uid).mp h)
  have heq : save_processed_uid_for_day fs cache day uid
      = (insertA fs day (((lookupA fs day).getD []) ++ [uid]),
         insertA (load_processed_for_day fs cache day).2 day
           ((load_processed_for_day fs cache day).1 ++ [uid])) := by
    unfold save_processed_uid_for_day
    simp [hm]
  refine ⟨save_save_self fs cache day uid, ?_, ?_⟩
  · rw [heq]
    simp only [lookupA_insertA_self, Option.getD_some]
    rw [fileUids_append_self _ _ hs hne]
    simp [List.count_append, List.count_eq_zero.mpr hnew]
  · rw [heq]
    have hlk : lookupA (insertA fs day (((lookupA fs day).getD []) ++ [uid])) day
        = some (((lookupA fs day).getD []) ++ [uid]) := lookupA_insertA_self _ _ _
    have hmem : uid ∈ fileUids (((lookupA fs day).getD []) ++ [uid]) := by
      rw [fileUids_append_self _ _ hs hne]
      simp
    exact save_fresh_mem _ _ _ _ hlk hmem

/-- Witness for claim C4 at a concrete input: empty store, empty cache,
bucket "2024-01-01", identifier "123". -/
theorem c4_save_idempotent_witness :
    (coherentAt ([] : Fs) ([] : Cache) "2024-01-01"
      ∧ "123" ∉ fileUids ((lookupA ([] : Fs) "2024-01-01").getD [])
      ∧ strip "123" = "123" ∧ "123" ≠ "")
    ∧ (save_processed_uid_for_day
          (save_processed_uid_for_day [] [] "2024-01-01" "123").1
          (save_processed_uid_for_day [] [] "2024-01-01" "123").2 "2024-01-01" "123"
        = save_processed_uid_for_day [] [] "2024-01-01" "123"
      ∧ (fileUids ((lookupA (save_processed_uid_for_day [] [] "2024-01-01" "123").1
          "2024-01-01").getD [])).count "123" = 1
      ∧ (save_processed_uid_for_day
          (save_processed_uid_for_day [] [] "2024-01-01" "123").1 [] "2024-01-01" "123").1
        = (save_processed_uid_for_day [] [] "2024-01-01" "123").1) :=
  ⟨⟨fun s h => by simp [lookupA] at h, by simp [lookupA, fileUids], rfl,
      by simp⟩,
    c4_save_idempotent [] [] "2024-01-01" "123"
      (fun s h => by simp [lookupA] at h) (by simp [lookupA, fileUids]) rfl
      (by simp)⟩

/-- Claim C10: with identifiers that are non-empty and contain no whitespace
(or newline), every ledger operation preserves the invariant that a cached
bucket entry, when present, denotes exactly the set of non-blank stripped
lines of the bucket's backing file, an absent file counting as empty. -/
theorem c10_ledger_coherence (fs : Fs) (cache : Cache) (day uid : String)
    (hcoh : coherent fs cache)
    (hne : uid ≠ "") (hws : ∀ c ∈ uid.data, isSpaceChar c = false) :
    coherent fs (load_processed_for_day fs cache day).2
    ∧ coherent (save_processed_uid_for_day fs cache day uid).1
               (save_processed_uid_for_day fs cache day uid).2 :=
  ⟨load_coherent fs cache day hcoh,
    save_coherent fs cache day uid hcoh (strip_eq_self uid hws) hne⟩

/-- Witness for claim C10 at a concrete input: store holding one bucket file
with a stray blank line, fresh cache, identifier "42". -/
theorem c10_ledger_coherence_witness :
    (coherent [("2024-05-05", ["7", ""])] []
      ∧ "42" ≠ "" ∧ ∀ c ∈ "42".data, isSpaceChar c = false)
    ∧ (coherent [("2024-05-05", ["7", ""])]
        (load_processed_for_day [("2024-05-05", ["7", ""])] [] "2024-05-05").2
      ∧ coherent
          (save_processed_uid_for_day [("2024-05-05", ["7", ""])] [] "2024-05-05" "42").1
          (save_processed_uid_for_day [("2024-05-05", ["7", ""])] [] "2024-05-05" "42").2) :=
  ⟨⟨fun day s h => by simp [lookupA] at h, by simp, by decide⟩,
    c10_ledger_coherence [("2024-05-05", ["7", ""])] [] "2024-05-05" "42"
      (fun day s h => by simp [lookupA] at h) (by simp) (by decide)⟩

theorem resolve_none_iff (subject : String) (tm : List (Regex × String)) :
    resolve_custom_folder subject tm = none ↔
      ∀ pf ∈ tm, searchB pf.1 subject.data = false := by
  induction tm with
  | nil => simp [resolve_custom_folder]
  | cons pf rest ih =>
    obtain ⟨p, f⟩ := pf
    by_cases h : searchB p subject.data = true
    · constructor
      · intro hnone
        rw [resolve_custom_folder] at hnone
        simp [h] at hnone
      · intro hall
        exact absurd (hall (p, f) (by simp)) (by simp [h])
    · have h' : searchB p subject.data = false := by
        simpa using h
      rw [resolve_custom_folder]
      simp [h', ih]

theorem resolve_some_intro (subject : String) (tm₁ tm₂ : List (Regex × String))
    (p : Regex) (f : String)
    (h : searchB p subject.data = true)
    (hall : ∀ pf ∈ tm₁, searchB pf.1 subject.data = false) :
    resolve_custom_folder subject (tm₁ ++ (p, f) :: tm₂) = some f := by
  induction tm₁ with
  | nil => simp [resolve_custom_folder, h]
  | cons q rest ih =>
    obtain ⟨q₁, q₂⟩ := q
    have hq : searchB q₁ subject.data = false := hall (q₁, q₂) (by simp)
    rw [List.cons_append, resolve_custom_folder]
    simp only [hq, Bool.false_eq_true, if_false]
    exact ih (fun pf hpf => hall pf (by simp [hpf]))

theorem resolve_some_elim (subject : String) (tm : List (Regex × String)) (f : String)
    (h : resolve_custom_folder subject tm = some f) :
    ∃ tm₁ p tm₂, tm = tm₁ ++ (p, f) :: tm₂ ∧ searchB p subject.data = true
      ∧ ∀ pf ∈ tm₁, searchB pf.1 subject.data = false := by
  induction tm with
  | nil => simp [resolve_custom_folder] at h
  | cons q rest ih =>
    obtain ⟨q₁, q₂⟩ := q
    by_cases hq : searchB q₁ subject.data = true
    · rw [resolve_custom_folder] at h
      simp only [hq, if_true, Option.some.injEq] at h
      exact ⟨[], q₁, rest, by simp [h], hq, by simp⟩
    · have hq' : searchB q₁ subject.data = false := by simpa using hq
      rw [resolve_custom_folder] at h
      simp only [hq', Bool.false_eq_true, if_false] at h
      obtain ⟨tm₁, p, tm₂, heq, hp, hall⟩ := ih h
      refine ⟨(q₁, q₂) :: tm₁, p, tm₂, by simp [heq], hp, ?_⟩
      intro pf hpf
      rcases List.mem_cons.mp hpf with h₁ | h₁
      · subst h₁
        exact hq'
      · exact hall pf h₁

/-- Claim C7: `resolve_custom_folder` returns the destination folder of the
first (pattern, folder) pair, in mapping order, whose pattern matches the
subject under a case-insensitive unanchored regex search, and `none` when no
pattern matches; with mappings invoice→A, .*→B, subject "Monthly Invoice"
resolves to A and "Newsletter" resolves to B. -/
theorem c7_resolve_custom_folder_first_match (subject : String)
    (tm : List (Regex × String)) :
    (resolve_custom_folder subject tm = none ↔
      ∀ pf ∈ tm, searchB pf.1 subject.data = false)
    ∧ (∀ f, resolve_custom_folder subject tm = some f ↔
        ∃ tm₁ p tm₂, tm = tm₁ ++ (p, f) :: tm₂ ∧ searchB p subject.data = true
          ∧ ∀ pf ∈ tm₁, searchB pf.1 subject.data = false)
    ∧ resolve_custom_folder "Monthly Invoice"
        [(litRe "invoice", "A"), (Regex.star Regex.any, "B")] = some "A"
    ∧ resolve_custom_folder "Newsletter"
        [(litRe "invoice", "A"), (Regex.star Regex.any, "B")] = some "B" := by
  refine ⟨resolve_none_iff subject tm, ?_, by decide, by decide⟩
  intro f
  constructor
  · exact resolve_some_elim subject tm f
  · rintro ⟨tm₁, p, tm₂, rfl, hp, hall⟩
    exact resolve_some_intro subject tm₁ tm₂ p f hp hall

theorem digitChar_val : ∀ k, k < 10 → (Nat.digitChar k).toNat - 48 = k := by decide

theorem unDec_append_digit (xs : List Char) (c : Char) :
    unDec (xs ++ [c]) = unDec xs * 10 + (c.toNat - 48) := by
  simp [unDec, List.foldl_append]

theorem unDec_natDigitsAux : ∀ fuel n, n ≤ fuel → unDec (natDigitsAux fuel n) = n := by
  intro fuel
  induction fuel with
  | zero =>
    intro n hn
    interval_cases n
    rfl
  | succ f ih =>
    intro n hn
    cases n with
    | zero => rfl
    | succ m =>
      rw [natDigitsAux, unDec_append_digit,
        ih ((m + 1) / 10) (by
          have : (m + 1) / 10 < m + 1 := Nat.div_lt_self (Nat.succ_pos m) (by norm_num)
          omega),
        digitChar_val _ (Nat.mod_lt _ (by norm_num))]
      omega

theorem unDec_natDec (n : Nat) : unDec (natDec n).data = n := by
  by_cases h : n = 0
  · subst h
    decide
  · rw [natDec, if_neg h]
    exact unDec_natDigitsAux n n le_rfl

theorem unDec_pad2 (n : Nat) : unDec (pad2 n).data = n := by
  by_cases h : n < 10
  · rw [pad2, if_pos h, String.data_append]
    show unDec ('0' :: (natDec n).data) = n
    rw [unDec, List.foldl_cons]
    show unDec (natDec n).data = n
    exact unDec_natDec n
  · rw [pad2, if_neg h]
    exact unDec_natDec n

theorem pad2_inj (n m : Nat) (h : pad2 n = pad2 m) : n = m := by
  rw [← unDec_pad2 n, ← unDec_pad2 m, h]

theorem containsA_iff (l : List String) (a : String) :
    l.contains a = true ↔ a ∈ l := by simp

theorem splitext_concat (s : String) :
    (splitext s).1.data ++ (splitext s).2.data = s.data := by
  unfold splitext
  cases s.data.reverse.findIdx? (fun c => c == '.') with
  | none => simp
  | some k =>
    simp only
    by_cases h : ((s.data.take (s.data.length - 1 - k)).any (fun c => c != '.')) = true
    · rw [if_pos h]
      exact List.take_append_drop _ _
    · rw [if_neg h]
      simp

theorem string_eq_of_data (s t : String) (h : s.data = t.data) : s = t := by
  cases s
  cases t
  exact congrArg String.mk h

theorem sspCand_zero (filename : String) : sspCand filename 0 = filename := by
  simp [sspCand]

theorem sspCand_succ (filename : String) (m : Nat) :
    (sspCand filename (m + 1)).data
      = (splitext filename).1.data
        ++ '_' :: ((pad2 (m + 1)).data ++ (splitext filename).2.data) := by
  simp [sspCand, String.data_append]

theorem sspCand_succ_length (filename : String) (m : Nat) :
    filename.data.length < (sspCand filename (m + 1)).data.length := by
  have h := congrArg List.length (sspCand_succ filename m)
  have hconc := congrArg List.length (splitext_concat filename)
  simp only [List.length_append, List.length_cons] at h hconc
  omega

theorem sspCand_inj (filename : String) : Function.Injective (sspCand filename) := by
  intro a b h
  cases a with
  | zero =>
    cases b with
    | zero => rfl
    | succ j =>
      exfalso
      have hl := congrArg (fun s => s.data.length) h
      simp only [sspCand_zero] at hl
      exact absurd hl (Nat.ne_of_lt (sspCand_succ_length filename j))
  | succ i =>
    cases b with
    | zero =>
      exfalso
      have hl := congrArg (fun s => s.data.length) h
      simp only [sspCand_zero] at hl
      exact absurd hl (Nat.ne_of_gt (sspCand_succ_length filename i))
    | succ j =>
      have hd : (sspCand filename (i + 1)).data = (sspCand filename (j + 1)).data :=
        congrArg String.data h
      rw [sspCand_succ, sspCand_succ] at hd
      have h₁ := List.append_cancel_left hd
      injection h₁ with hhead h₂
      have h₃ := List.append_cancel_right h₂
      have := pad2_inj _ _ (string_eq_of_data _ _ h₃)
      omega

theorem sspLoop_spec (existing : List String) (filename : String) :
    ∀ fuel n c, sspLoop existing filename fuel n = some c →
      ∃ k, c = sspCand filename (n + k) ∧ sspCand filename (n + k) ∉ existing
        ∧ ∀ j < k, sspCand filename (n + j) ∈ existing := by
  intro fuel
  induction fuel with
  | zero => intro n c h; simp [sspLoop] at h
  | succ f ih =>
    intro n c h
    rw [sspLoop] at h
    by_cases hc : existing.contains (sspCand filename n) = true
    · rw [if_pos hc] at h
      obtain ⟨k, hk₁, hk₂, hk₃⟩ := ih (n + 1) c h
      have hnk : n + 1 + k = n + (k + 1) := by omega
      rw [hnk] at hk₁ hk₂
      refine ⟨k + 1, hk₁, hk₂, ?_⟩
      intro j hj
      cases j with
      | zero => exact (containsA_iff existing _).mp hc
      | succ j' =>
        have hj' : n + (j' + 1) = n + 1 + j' := by omega
        rw [hj']
        exact hk₃ j' (by omega)
    · rw [if_neg hc] at h
      cases h
      refine ⟨0, rfl, ?_, by omega⟩
      intro hmem
      exact hc ((containsA_iff existing _).mpr hmem)

theorem sspLoop_total (existing : List String) (filename : String) :
    ∀ fuel n, (∃ k < fuel, sspCand filename (n + k) ∉ existing) →
      (sspLoop existing filename fuel n).isSome := by
  intro fuel
  induction fuel with
  | zero =>
    intro n h
    obtain ⟨k, hk, _⟩ := h
    exact absurd hk (Nat.not_lt_zero k)
  | succ f ih =>
    intro n h
    rw [sspLoop]
    by_cases hc : existing.contains (sspCand filename n) = true
    · rw [if_pos hc]
      obtain ⟨k, hk, hfree⟩ := h
      cases k with
      | zero => exact absurd ((containsA_iff existing _).mp hc) hfree
      | succ k' =>
        refine ih (n + 1) ⟨k', by omega, ?_⟩
        have hnk : n + 1 + k' = n + (k' + 1) := by omega
        rwa [hnk]
    · rw [if_neg hc]
      rfl

theorem exists_sspCand_free (existing : List String) (filename : String) :
    ∃ k < existing.length + 2, sspCand filename k ∉ existing := by
  by_contra hcon
  push_neg at hcon
  have hsub : ((List.range (existing.length + 2)).map (sspCand filename)) ⊆ existing := by
    intro x hx
    obtain ⟨k, hk, rfl⟩ := List.mem_map.mp hx
    exact hcon k (List.mem_range.mp hk)
  have hnd : ((List.range (existing.length + 2)).map (sspCand filename)).Nodup :=
    (List.nodup_range (existing.length + 2)).map (sspCand_inj filename)
  have hle := (hnd.subperm hsub).length_le
  simp only [List.length_map, List.length_range] at hle
  omega

/-- Claim C8: `safe_save_path` returns a name not present in the directory
(so no existing file is overwritten): the plain name when free, otherwise
the first free zero-padded suffixed candidate in increasing order; with
"report.pdf" present the result is "report_01.pdf", with "report_01.pdf"
also present it is "report_02.pdf". -/
theorem c8_safe_save_path (existing : List String) (filename : String) :
    (∃ n, safe_save_path existing filename = some (sspCand filename n)
      ∧ sspCand filename n ∉ existing
      ∧ ∀ m < n, sspCand filename m ∈ existing)
    ∧ (filename ∉ existing → safe_save_path existing filename = some filename)
    ∧ safe_save_path ["report.pdf"] "report.pdf" = some "report_01.pdf"
    ∧ safe_save_path ["report.pdf", "report_01.pdf"] "report.pdf"
        = some "report_02.pdf" := by
  refine ⟨?_, ?_, by decide, by decide⟩
  · have htot : (sspLoop existing filename (existing.length + 2) 0).isSome := by
      refine sspLoop_total existing filename (existing.length + 2) 0 ?_
      obtain ⟨k, hk, hfree⟩ := exists_sspCand_free existing filename
      exact ⟨k, hk, by simpa using hfree⟩
    obtain ⟨c, hc⟩ := Option.isSome_iff_exists.mp htot
    obtain ⟨k, hk₁, hk₂, hk₃⟩ := sspLoop_spec existing filename _ 0 c hc
    refine ⟨k, ?_, by simpa using hk₂, fun m hm => by simpa using hk₃ m hm⟩
    rw [safe_save_path, hc, hk₁]
    simp
  · intro hfree
    have hc : existing.contains (sspCand filename 0) = false := by
      rw [sspCand, if_pos rfl]
      exact (Bool.not_eq_true _).mp (fun h => hfree ((containsA_iff existing _).mp h))
    show sspLoop existing filename (existing.length + 1 + 1) 0 = some filename
    rw [sspLoop, hc]
    simp [sspCand]

/-- Witness for claim C8's conditional part at a concrete input: an empty
directory returns the plain name unchanged. -/
theorem c8_safe_save_path_witness :
    ("a.txt" ∉ ([] : List String))
    ∧ safe_save_path [] "a.txt" = some "a.txt" :=
  ⟨by simp, (c8_safe_save_path [] "a.txt").2.1 (by simp)⟩

/-- Witness exercising claim C7's characterization at a concrete input: the
empty mapping resolves to none. -/
theorem c7_resolve_custom_folder_witness :
    resolve_custom_folder "any subject" ([] : List (Regex × String)) = none :=
  (c7_resolve_custom_folder_first_match "any subject" []).1.mpr (by simp)

theorem sweepTarget_iff (todayOrd keep : Int) (e : DirEntry) :
    sweepTarget todayOrd keep e = true ↔
      e.isFile = true ∧ (splitext e.name).2 = ".txt"
      ∧ ∃ y m d, parseYMD (splitext e.name).1 = some (y, m, d)
          ∧ (dateOrd y m d : Int) < todayOrd - keep := by
  unfold sweepTarget
  cases hp : parseYMD (splitext e.name).1 with
  | none => simp [hp]
  | some t =>
    obtain ⟨y, m, d⟩ := t
    simp [hp, Bool.and_eq_true, beq_iff_eq, and_assoc]

/-- Claim C5: with retention horizon `keep`, the sweep removes exactly the
regular `.txt` ledger files whose base name parses as a calendar date
strictly older than today minus `keep` days; a non-positive horizon deletes
nothing, and names that do not parse as a date — the "nodate" sentinel in
particular — are never deleted. -/
theorem c5_cleanup_old_processed_days (todayOrd keep : Int) (entries : List DirEntry) :
    (keep ≤ 0 → cleanup_old_processed_days todayOrd keep entries = entries)
    ∧ (0 < keep → ∀ e ∈ entries,
        (e ∉ cleanup_old_processed_days todayOrd keep entries
          ↔ e.isFile = true ∧ (splitext e.name).2 = ".txt"
            ∧ ∃ y m d, parseYMD (splitext e.name).1 = some (y, m, d)
                ∧ (dateOrd y m d : Int) < todayOrd - keep))
    ∧ parseYMD "nodate" = none
    ∧ (∀ e ∈ entries, e.name = "nodate.txt" →
        e ∈ cleanup_old_processed_days todayOrd keep entries) := by
  refine ⟨?_, ?_, by decide, ?_⟩
  · intro hk
    rw [cleanup_old_processed_days, if_pos hk]
  · intro hk e he
    rw [cleanup_old_processed_days, if_neg (not_le.mpr hk)]
    rw [← sweepTarget_iff todayOrd keep e]
    constructor
    · intro hnot
      by_contra htgt
      have : e ∈ entries.filter (fun e => !sweepTarget todayOrd keep e) :=
        List.mem_filter.mpr ⟨he, by simp [Bool.not_eq_true] at htgt ⊢; exact htgt⟩
      exact hnot this
    · intro htgt hmem
      have := (List.mem_filter.mp hmem).2
      simp [htgt] at this
  · intro e he hname
    by_cases hk : keep ≤ 0
    · rw [cleanup_old_processed_days, if_pos hk]
      exact he
    · rw [cleanup_old_processed_days, if_neg hk]
      refine List.mem_filter.mpr ⟨he, ?_⟩
      have hsp : sweepTarget todayOrd keep e = false := by
        unfold sweepTarget
        rw [hname]
        have h1 : (splitext "nodate.txt").1 = "nodate" := by decide
        have h2 : parseYMD "nodate" = none := by decide
        rw [h1, h2]
        simp
      simp [hsp]

/-- Witness for claim C5 at a concrete input: a zero horizon deletes
nothing. -/
theorem c5_cleanup_old_processed_days_witness :
    ((0 : Int) ≤ 0)
    ∧ cleanup_old_processed_days 738000 0 [⟨"2020-01-01.txt", true⟩]
        = [⟨"2020-01-01.txt", true⟩] :=
  ⟨le_refl 0,
    (c5_cleanup_old_processed_days 738000 0 [⟨"2020-01-01.txt", true⟩]).1 (le_refl 0)⟩

/-- Claim C3 counterexample: a raised protocol error during the phase-A
fetch yields the outcome `error`, not `skipped` — `_process_email` lines
327–329 return "error" from the exception handler around the fetch, so the
claim's "a raised protocol error … yields skipped, never error" is false. -/
theorem c3_phaseA_exception_counterexample :
    (processEmail ⟨⟨true, ["root"]⟩, [], [], true, true⟩
        ⟨.exn, .bad, .bad, false⟩ [] []).outcome = .error
    ∧ (processEmail ⟨⟨true, ["root"]⟩, [], [], true, true⟩
        ⟨.exn, .bad, .bad, false⟩ [] []).outcome ≠ .skipped := by decide

/-- Claim C3 (amended): a phase-A fetch that returns a non-OK status or an
empty response, or a response from which no UID can be extracted, yields
`skipped`; but a phase-A fetch that raises yields `error`. -/
theorem c3_phaseA_failure_outcomes (cfg : Config) (fs : Fs) (cache : Cache)
    (pb : FetchB) (pc : FetchC) (mkf : Bool) :
    (processEmail cfg ⟨.bad, pb, pc, mkf⟩ fs cache).outcome = .skipped
    ∧ (∀ raw, findUID raw = none →
        (processEmail cfg ⟨.ok raw, pb, pc, mkf⟩ fs cache).outcome = .skipped)
    ∧ (processEmail cfg ⟨.exn, pb, pc, mkf⟩ fs cache).outcome = .error := by
  refine ⟨rfl, ?_, rfl⟩
  intro raw h
  simp [processEmail, h]

/-- Witness for claim C3's amended theorem at a concrete input: a raw
response with no UID field is skipped. -/
theorem c3_phaseA_failure_outcomes_witness :
    findUID "2 (RFC822.SIZE 512)" = none
    ∧ (processEmail ⟨⟨true, ["root"]⟩, [], [], true, true⟩
        ⟨.ok "2 (RFC822.SIZE 512)", .bad, .bad, false⟩ [] []).outcome = .skipped :=
  ⟨by decide,
    (c3_phaseA_failure_outcomes ⟨⟨true, ["root"]⟩, [], [], true, true⟩ [] []
      .bad .bad false).2.1 "2 (RFC822.SIZE 512)" (by decide)⟩

/-- Claim C6: a sender is accepted iff its lowercasing equals the
lowercasing of some configured entry; the empty allow-list rejects every
sender, and a message from a rejected sender is skipped. -/
theorem c6_sender_allow_list (allowed : List String) (sender : String) :
    (is_allowed_sender allowed sender = true ↔
      ∃ a ∈ allowed, toLowerS a = toLowerS sender)
    ∧ is_allowed_sender [] sender = false
    ∧ (∀ (cfg : Config) (fs : Fs) (cache : Cache)
        (raw uid subject dayStr : String) (pc : FetchC) (mkf : Bool),
        cfg.allowedSenders = allowed →
        findUID raw = some uid →
        uid ∉ (load_processed_for_day fs cache dayStr).1 →
        is_allowed_sender allowed sender = false →
        (processEmail cfg ⟨.ok raw, .ok sender subject dayStr, pc, mkf⟩ fs cache).outcome
          = .skipped) := by
  refine ⟨?_, rfl, ?_⟩
  · constructor
    · intro h
      have := (containsA_iff _ _).mp h
      obtain ⟨a, ha, heq⟩ := List.mem_map.mp this
      exact ⟨a, ha, heq⟩
    · rintro ⟨a, ha, heq⟩
      exact (containsA_iff _ _).mpr (List.mem_map.mpr ⟨a, ha, heq⟩)
  · intro cfg fs cache raw uid subject dayStr pc mkf hcfg hu hdup hrej
    by_cases hskip : cfg.skipNonAllowedAsProcessed
    <;> simp [processEmail, hu, hdup, hcfg, hrej, hskip]

/-- Witness for claim C6 at a concrete input: the empty allow-list rejects
the sender and the message is skipped. -/
theorem c6_sender_allow_list_witness :
    ((⟨⟨true, ["root"]⟩, [], [], true, true⟩ : Config).allowedSenders = []
      ∧ findUID "1 (UID 9 X)" = some "9"
      ∧ "9" ∉ (load_processed_for_day [] [] "2024-01-01").1
      ∧ is_allowed_sender [] "anyone@example.com" = false)
    ∧ (processEmail ⟨⟨true, ["root"]⟩, [], [], true, true⟩
        ⟨.ok "1 (UID 9 X)", .ok "anyone@example.com" "s" "2024-01-01", .bad, false⟩
        [] []).outcome = .skipped :=
  ⟨⟨rfl, by decide, by decide, by decide⟩,
    (c6_sender_allow_list [] "anyone@example.com").2.2
      ⟨⟨true, ["root"]⟩, [], [], true, true⟩ [] [] "1 (UID 9 X)" "9" "s" "2024-01-01"
      .bad false rfl (by decide) (by decide) (by decide)⟩

/-- Claim C9: the full-body (phase C) fetch is never issued before the
dedup check and the sender filter have passed: a duplicate identifier or a
disallowed sender means outcome `skipped` with no phase-C fetch in the
trace (and, for a duplicate, no change to the durable ledger); conversely a
phase-C fetch in the trace implies the identifier was not recorded and the
sender was allowed. -/
theorem c9_two_phase_fetch_ordering (cfg : Config) (fs : Fs) (cache : Cache)
    (raw uid sender subject dayStr : String) (pc : FetchC) (mkf : Bool)
    (hu : findUID raw = some uid) :
    (uid ∈ (load_processed_for_day fs cache dayStr).1 →
      (processEmail cfg ⟨.ok raw, .ok sender subject dayStr, pc, mkf⟩ fs cache).outcome
        = .skipped
      ∧ Action.fetchFull ∉
          (processEmail cfg ⟨.ok raw, .ok sender subject dayStr, pc, mkf⟩ fs cache).trace
      ∧ (processEmail cfg ⟨.ok raw, .ok sender subject dayStr, pc, mkf⟩ fs cache).fs = fs)
    ∧ (is_allowed_sender cfg.allowedSenders sender = false →
        (processEmail cfg ⟨.ok raw, .ok sender subject dayStr, pc, mkf⟩ fs cache).outcome
          = .skipped
        ∧ Action.fetchFull ∉
            (processEmail cfg ⟨.ok raw, .ok sender subject dayStr, pc, mkf⟩ fs cache).trace)
    ∧ (Action.fetchFull ∈
          (processEmail cfg ⟨.ok raw, .ok sender subject dayStr, pc, mkf⟩ fs cache).trace →
        uid ∉ (load_processed_for_day fs cache dayStr).1
        ∧ is_allowed_sender cfg.allowedSenders sender = true) := by
  refine ⟨?_, ?_, ?_⟩
  · intro hdup
    refine ⟨by simp [processEmail, hu, hdup], ?_, by simp [processEmail, hu, hdup]⟩
    simp [processEmail, hu, hdup]
  · intro hrej
    by_cases hdup : uid ∈ (load_processed_for_day fs cache dayStr).1
    · exact ⟨by simp [processEmail, hu, hdup], by simp [processEmail, hu, hdup]⟩
    · by_cases hskip : cfg.skipNonAllowedAsProcessed
      <;> exact ⟨by simp [processEmail, hu, hdup, hrej, hskip],
            by simp [processEmail, hu, hdup, hrej, hskip]⟩
  · intro hfull
    by_cases hdup : uid ∈ (load_processed_for_day fs cache dayStr).1
    · exfalso
      exact (by simp [processEmail, hu, hdup] at hfull)
    · by_cases hallow : is_allowed_sender cfg.allowedSenders sender = true
      · exact ⟨hdup, hallow⟩
      · exfalso
        have hrej : is_allowed_sender cfg.allowedSenders sender = false := by
          simpa using hallow
        by_cases hskip : cfg.skipNonAllowedAsProcessed
        <;> simp [processEmail, hu, hdup, hrej, hskip] at hfull

/-- Witness for claim C9 at a concrete input: an identifier already present
in its day bucket is skipped with no phase-C fetch and no ledger write. -/
theorem c9_two_phase_fetch_ordering_witness :
    (findUID "1 (UID 9 X)" = some "9"
      ∧ "9" ∈ (load_processed_for_day [("2024-01-01", ["9"])] [] "2024-01-01").1)
    ∧ ((processEmail ⟨⟨true, ["root"]⟩, [], ["a@b.com"], true, true⟩
          ⟨.ok "1 (UID 9 X)", .ok "a@b.com" "s" "2024-01-01", .bad, false⟩
          [("2024-01-01", ["9"])] []).outcome = .skipped
      ∧ Action.fetchFull ∉
          (processEmail ⟨⟨true, ["root"]⟩, [], ["a@b.com"], true, true⟩
            ⟨.ok "1 (UID 9 X)", .ok "a@b.com" "s" "2024-01-01", .bad, false⟩
            [("2024-01-01", ["9"])] []).trace
      ∧ (processEmail ⟨⟨true, ["root"]⟩, [], ["a@b.com"], true, true⟩
          ⟨.ok "1 (UID 9 X)", .ok "a@b.com" "s" "2024-01-01", .bad, false⟩
          [("2024-01-01", ["9"])] []).fs = [("2024-01-01", ["9"])]) :=
  ⟨⟨by decide, by decide⟩,
    (c9_two_phase_fetch_ordering ⟨⟨true, ["root"]⟩, [], ["a@b.com"], true, true⟩
      [("2024-01-01", ["9"])] [] "1 (UID 9 X)" "9" "a@b.com" "s" "2024-01-01"
      .bad false (by decide)).1 (by decide)⟩

/-- Claim C2 counterexample: a message whose only attachment part is
blocked by the attachment policy gets outcome `error`, not `skipped` — the
`_process_email` outcome logic (lines 435–472) records every non-written
attachment in `attachment_errors` without distinguishing policy blocks, and
the run result counts the message under `errors` (the `ProcessingResult`
dataclass of lines 72–78 has no blocked count at all). -/
theorem c2_blocked_policy_counterexample :
    (processEmail ⟨⟨true, ["root"]⟩, [], ["a@b.com"], true, true⟩
        ⟨.ok "1 (UID 5 X)", .ok "a@b.com" "subj" "2024-01-01",
          .ok [⟨true, .blockedByPolicy⟩], false⟩ [] []).outcome = .error
    ∧ (processEmail ⟨⟨true, ["root"]⟩, [], ["a@b.com"], true, true⟩
        ⟨.ok "1 (UID 5 X)", .ok "a@b.com" "subj" "2024-01-01",
          .ok [⟨true, .blockedByPolicy⟩], false⟩ [] []).outcome ≠ .skipped
    ∧ (processAll ⟨⟨true, ["root"]⟩, [], ["a@b.com"], true, true⟩
        [⟨.ok "1 (UID 5 X)", .ok "a@b.com" "subj" "2024-01-01",
          .ok [⟨true, .blockedByPolicy⟩], false⟩] [] []).1
        = ⟨0, 0, 1⟩ := by decide

/-- Claim C2 (amended): for a message reaching attachment iteration, the
outcome is `processed` iff some attachment part was written; `error` iff
there was at least one attachment part and none was written — a policy
block counting the same as a write failure; and `skipped` iff the message
has no attachment parts.  Policy blocks are not tracked separately in the
run result. -/
theorem c2_outcome_classification (cfg : Config) (fs : Fs) (cache : Cache)
    (raw uid sender subject dayStr : String) (parts : List Part)
    (hu : findUID raw = some uid)
    (hdup : uid ∉ (load_processed_for_day fs cache dayStr).1)
    (hallow : is_allowed_sender cfg.allowedSenders sender = true)
    (hval : validate_path (resolveP cfg.downloadDir)
        (resolveP (targetFolder cfg subject)) = true) :
    ((processEmail cfg ⟨.ok raw, .ok sender subject dayStr, .ok parts, false⟩
        fs cache).outcome = .processed
      ↔ ∃ p ∈ parts, p.isAttachment = true ∧ p.save = .written)
    ∧ ((processEmail cfg ⟨.ok raw, .ok sender subject dayStr, .ok parts, false⟩
        fs cache).outcome = .error
      ↔ ((∃ p ∈ parts, p.isAttachment = true)
          ∧ ∀ p ∈ parts, p.isAttachment = true → p.save ≠ .written))
    ∧ ((processEmail cfg ⟨.ok raw, .ok sender subject dayStr, .ok parts, false⟩
        fs cache).outcome = .skipped
      ↔ ∀ p ∈ parts, p.isAttachment = false) := by
  have hmemW : ∀ p : Part,
      p ∈ (parts.filter (fun p => p.isAttachment)).filter
            (fun p => p.save == SaveOutcome.written)
        ↔ p ∈ parts ∧ p.isAttachment = true ∧ p.save = .written := by
    intro p
    simp only [List.mem_filter, beq_iff_eq, and_assoc]
  have hmemN : ∀ p : Part,
      p ∈ (parts.filter (fun p => p.isAttachment)).filter
            (fun p => !(p.save == SaveOutcome.written))
        ↔ p ∈ parts ∧ p.isAttachment = true ∧ p.save ≠ .written := by
    intro p
    simp only [List.mem_filter, Bool.not_eq_true', beq_eq_false_iff_ne]
    constructor
    · rintro ⟨⟨h₁, h₂⟩, h₃⟩
      exact ⟨h₁, h₂, h₃⟩
    · rintro ⟨h₁, h₂, h₃⟩
      exact ⟨⟨h₁, h₂⟩, h₃⟩
  have hout : (processEmail cfg ⟨.ok raw, .ok sender subject dayStr, .ok parts, false⟩
      fs cache).outcome
      = (if !((parts.filter (fun p => p.isAttachment)).filter
              (fun p => p.save == SaveOutcome.written)).isEmpty
         then Outcome.processed
         else if !((parts.filter (fun p => p.isAttachment)).filter
              (fun p => !(p.save == SaveOutcome.written))).isEmpty
         then Outcome.error
         else Outcome.skipped) := by
    simp [processEmail, hu, hdup, hallow, hval]
  cases hW : ((parts.filter (fun p => p.isAttachment)).filter
      (fun p => p.save == SaveOutcome.written)).isEmpty with
  | false =>
    have hP : (processEmail cfg ⟨.ok raw, .ok sender subject dayStr, .ok parts, false⟩
        fs cache).outcome = Outcome.processed := by
      rw [hout, hW]
      rfl
    have hne : (parts.filter (fun p => p.isAttachment)).filter
        (fun p => p.save == SaveOutcome.written) ≠ [] := by
      intro hnil
      rw [hnil] at hW
      simp at hW
    obtain ⟨q, hq⟩ := List.exists_mem_of_ne_nil _ hne
    obtain ⟨hq₁, hq₂, hq₃⟩ := (hmemW q).mp hq
    rw [hP]
    refine ⟨⟨fun _ => ⟨q, hq₁, hq₂, hq₃⟩, fun _ => rfl⟩, ?_, ?_⟩
    · constructor
      · intro h
        exact Outcome.noConfusion h
      · rintro ⟨-, hall⟩
        exact absurd hq₃ (hall q hq₁ hq₂)
    · constructor
      · intro h
        exact Outcome.noConfusion h
      · intro hall
        exact absurd (hall q hq₁) (by simp [hq₂])
  | true =>
    have hWnone : ∀ p ∈ parts, p.isAttachment = true → p.save ≠ .written := by
      intro p hp hatt hsave
      have hmem : p ∈ (parts.filter (fun p => p.isAttachment)).filter
          (fun p => p.save == SaveOutcome.written) := (hmemW p).mpr ⟨hp, hatt, hsave⟩
      rw [List.isEmpty_iff.mp hW] at hmem
      cases hmem
    cases hN : ((parts.filter (fun p => p.isAttachment)).filter
        (fun p => !(p.save == SaveOutcome.written))).isEmpty with
    | false =>
      have hE : (processEmail cfg ⟨.ok raw, .ok sender subject dayStr, .ok parts, false⟩
          fs cache).outcome = Outcome.error := by
        rw [hout, hW, hN]
        rfl
      have hne : (parts.filter (fun p => p.isAttachment)).filter
          (fun p => !(p.save == SaveOutcome.written)) ≠ [] := by
        intro hnil
        rw [hnil] at hN
        simp at hN
      obtain ⟨q, hq⟩ := List.exists_mem_of_ne_nil _ hne
      obtain ⟨hq₁, hq₂, hq₃⟩ := (hmemN q).mp hq
      rw [hE]
      refine ⟨?_, ⟨fun _ => ⟨⟨q, hq₁, hq₂⟩, hWnone⟩, fun _ => rfl⟩, ?_⟩
      · constructor
        · intro h
          exact Outcome.noConfusion h
        · rintro ⟨p, hp, hatt, hsave⟩
          exact absurd hsave (hWnone p hp hatt)
      · constructor
        · intro h
          exact Outcome.noConfusion h
        · intro hall
          exact absurd (hall q hq₁) (by simp [hq₂])
    | true =>
      have hS : (processEmail cfg ⟨.ok raw, .ok sender subject dayStr, .ok parts, false⟩
          fs cache).outcome = Outcome.skipped := by
        rw [hout, hW, hN]
        rfl
      have hNnone : ∀ p ∈ parts, p.isAttachment = false := by
        intro p hp
        by_cases hatt : p.isAttachment = true
        · by_cases hsave : p.save = SaveOutcome.written
          · have hmem : p ∈ (parts.filter (fun p => p.isAttachment)).filter
                (fun p => p.save == SaveOutcome.written) := (hmemW p).mpr ⟨hp, hatt, hsave⟩
            rw [List.isEmpty_iff.mp hW] at hmem
            cases hmem
          · have hmem : p ∈ (parts.filter (fun p => p.isAttachment)).filter
                (fun p => !(p.save == SaveOutcome.written)) := (hmemN p).mpr ⟨hp, hatt, hsave⟩
            rw [List.isEmpty_iff.mp hN] at hmem
            cases hmem
        · simpa using hatt
      rw [hS]
      refine ⟨?_, ?_, ⟨fun _ => hNnone, fun _ => rfl⟩⟩
      · constructor
        · intro h
          exact Outcome.noConfusion h
        · rintro ⟨p, hp, hatt, -⟩
          exact absurd (hNnone p hp) (by simp [hatt])
      · constructor
        · intro h
          exact Outcome.noConfusion h
        · rintro ⟨⟨p, hp, hatt⟩, -⟩
          exact absurd (hNnone p hp) (by simp [hatt])

/-- Witness for claim C2's amended theorem at a concrete input: one written
attachment part gives outcome `processed`. -/
theorem c2_outcome_classification_witness :
    (findUID "1 (UID 5 X)" = some "5"
      ∧ "5" ∉ (load_processed_for_day [] [] "2024-01-01").1
      ∧ is_allowed_sender ["a@b.com"] "a@b.com" = true
      ∧ validate_path
          (resolveP (⟨⟨true, ["root"]⟩, [], ["a@b.com"], true, true⟩ : Config).downloadDir)
          (resolveP (targetFolder ⟨⟨true, ["root"]⟩, [], ["a@b.com"], true, true⟩ "subj"))
          = true)
    ∧ ((processEmail ⟨⟨true, ["root"]⟩, [], ["a@b.com"], true, true⟩
        ⟨.ok "1 (UID 5 X)", .ok "a@b.com" "subj" "2024-01-01",
          .ok [⟨true, .written⟩], false⟩ [] []).outcome = .processed
      ↔ ∃ p ∈ [(⟨true, .written⟩ : Part)], p.isAttachment = true ∧ p.save = .written) :=
  ⟨⟨by decide, by decide, by decide, by decide⟩,
    (c2_outcome_classification ⟨⟨true, ["root"]⟩, [], ["a@b.com"], true, true⟩ [] []
      "1 (UID 5 X)" "5" "a@b.com" "subj" "2024-01-01" [⟨true, .written⟩]
      (by decide) (by decide) (by decide) (by decide)).1⟩

theorem processEmail_dir_safety (cfg : Config) (env : MsgEnv) (fs : Fs) (cache : Cache)
    (p : PathM)
    (h : Action.mkdir p ∈ (processEmail cfg env fs cache).trace
      ∨ Action.writeFile p ∈ (processEmail cfg env fs cache).trace) :
    validate_path (resolveP cfg.downloadDir) p = true := by
  obtain ⟨pa, pb, pc, mkf⟩ := env
  cases pa with
  | exn => simp [processEmail] at h
  | bad => simp [processEmail] at h
  | ok raw =>
    cases hfind : findUID raw with
    | none => simp [processEmail, hfind] at h
    | some uid =>
      cases pb with
      | exn => simp [processEmail, hfind] at h
      | bad => simp [processEmail, hfind] at h
      | empty => simp [processEmail, hfind] at h
      | parseExn => simp [processEmail, hfind] at h
      | ok sender subject dayStr =>
        by_cases hdup : uid ∈ (load_processed_for_day fs cache dayStr).1
        · simp [processEmail, hfind, hdup] at h
        · by_cases hallow : is_allowed_sender cfg.allowedSenders sender = true
          · by_cases hval : validate_path (resolveP cfg.downloadDir)
                (resolveP (targetFolder cfg subject)) = true
            · cases hmk : mkf with
              | true => simp [processEmail, hfind, hdup, hallow, hval, hmk] at h
              | false =>
                cases pc with
                | exn =>
                  simp [processEmail, hfind, hdup, hallow, hval, hmk] at h
                  rw [h]
                  exact hval
                | bad =>
                  simp [processEmail, hfind, hdup, hallow, hval, hmk] at h
                  rw [h]
                  exact hval
                | empty =>
                  simp [processEmail, hfind, hdup, hallow, hval, hmk] at h
                  rw [h]
                  exact hval
                | parseExn =>
                  simp [processEmail, hfind, hdup, hallow, hval, hmk] at h
                  rw [h]
                  exact hval
                | ok parts =>
                  by_cases harch : ((resolve_custom_folder subject cfg.topicMapping).isSome
                      && cfg.archiveOnlyMapped) = true
                  <;> simp [processEmail, hfind, hdup, hallow, hval, hmk, harch,
                        List.mem_replicate] at h
                  <;> rcases h with h | ⟨-, h⟩
                  <;> (rw [h]; exact hval)
            · simp [processEmail, hfind, hdup, hallow, hval] at h
          · have hrej : is_allowed_sender cfg.allowedSenders sender = false := by
              simpa using hallow
            by_cases hskip : cfg.skipNonAllowedAsProcessed
            <;> simp [processEmail, hfind, hdup, hrej, hskip] at h

/-- Claim C1: a message whose resolved target directory is not (a descendant
of) the resolved download root — e.g. an absolute mapped folder or one with
parent traversal — is rejected with outcome `error` with no directory
creation, no file write and no ledger change; and in every run of
`_process_email` each directory created or written lies under the resolved
download root (the spec-modelled `validate_path` accepts it). -/
theorem c1_target_escape_rejected (cfg : Config) (fs : Fs) (cache : Cache)
    (raw uid sender subject dayStr : String) (pc : FetchC) (mkf : Bool)
    (hu : findUID raw = some uid)
    (hdup : uid ∉ (load_processed_for_day fs cache dayStr).1)
    (hallow : is_allowed_sender cfg.allowedSenders sender = true)
    (hesc : validate_path (resolveP cfg.downloadDir)
        (resolveP (targetFolder cfg subject)) = false) :
    ((processEmail cfg ⟨.ok raw, .ok sender subject dayStr, pc, mkf⟩ fs cache).outcome
        = .error
      ∧ (∀ q, Action.mkdir q ∉
          (processEmail cfg ⟨.ok raw, .ok sender subject dayStr, pc, mkf⟩ fs cache).trace)
      ∧ (∀ q, Action.writeFile q ∉
          (processEmail cfg ⟨.ok raw, .ok sender subject dayStr, pc, mkf⟩ fs cache).trace)
      ∧ (processEmail cfg ⟨.ok raw, .ok sender subject dayStr, pc, mkf⟩ fs cache).fs = fs)
    ∧ (∀ (env : MsgEnv) (q : PathM),
        (Action.mkdir q ∈ (processEmail cfg env fs cache).trace
          ∨ Action.writeFile q ∈ (processEmail cfg env fs cache).trace) →
        validate_path (resolveP cfg.downloadDir) q = true) := by
  constructor
  · refine ⟨?_, ?_, ?_, ?_⟩
    · simp [processEmail, hu, hdup, hallow, hesc]
    · intro q
      simp [processEmail, hu, hdup, hallow, hesc]
    · intro q
      simp [processEmail, hu, hdup, hallow, hesc]
    · simp [processEmail, hu, hdup, hallow, hesc]
  · intro env q hq
    exact processEmail_dir_safety cfg env fs cache q hq

/-- Witness for claim C1 at a concrete input: a topic mapping whose folder
is the absolute path "/abs/evil" is rejected with `error` and no
directory creation. -/
theorem c1_target_escape_rejected_witness :
    (findUID "1 (UID 5 X)" = some "5"
      ∧ "5" ∉ (load_processed_for_day [] [] "2024-01-01").1
      ∧ is_allowed_sender ["a@b.com"] "a@b.com" = true
      ∧ validate_path
          (resolveP (⟨⟨true, ["root"]⟩, [(litRe "inv", "/abs/evil")],
            ["a@b.com"], true, true⟩ : Config).downloadDir)
          (resolveP (targetFolder
            ⟨⟨true, ["root"]⟩, [(litRe "inv", "/abs/evil")], ["a@b.com"], true, true⟩
            "invoice")) = false)
    ∧ ((processEmail ⟨⟨true, ["root"]⟩, [(litRe "inv", "/abs/evil")], ["a@b.com"], true, true⟩
          ⟨.ok "1 (UID 5 X)", .ok "a@b.com" "invoice" "2024-01-01", .bad, false⟩
          [] []).outcome = .error
      ∧ (∀ q, Action.mkdir q ∉
          (processEmail ⟨⟨true, ["root"]⟩, [(litRe "inv", "/abs/evil")], ["a@b.com"], true, true⟩
            ⟨.ok "1 (UID 5 X)", .ok "a@b.com" "invoice" "2024-01-01", .bad, false⟩
            [] []).trace)
      ∧ (∀ q, Action.writeFile q ∉
          (processEmail ⟨⟨true, ["root"]⟩, [(litRe "inv", "/abs/evil")], ["a@b.com"], true, true⟩
            ⟨.ok "1 (UID 5 X)", .ok "a@b.com" "invoice" "2024-01-01", .bad, false⟩
            [] []).trace)
      ∧ (processEmail ⟨⟨true, ["root"]⟩, [(litRe "inv", "/abs/evil")], ["a@b.com"], true, true⟩
          ⟨.ok "1 (UID 5 X)", .ok "a@b.com" "invoice" "2024-01-01", .bad, false⟩
          [] []).fs = []) :=
  ⟨⟨by decide, by decide, by decide, by decide⟩,
    (c1_target_escape_rejected
      ⟨⟨true, ["root"]⟩, [(litRe "inv", "/abs/evil")], ["a@b.com"], true, true⟩ [] []
      "1 (UID 5 X)" "5" "a@b.com" "invoice" "2024-01-01" .bad false
      (by decide) (by decide) (by decide) (by decide)).1⟩

end EmailProc
